import Mathlib

/-!
Shallow embedding of the NewsStream feed-aggregation pipeline (src/script.js)
and proofs of the specification claims about it.

Modelling conventions, used throughout:
* JS strings are modelled as Lean `String`s; `charCodeAt` is `Char.toNat`
  (they agree on code points below 0x10000) and `toLowerCase` is the ASCII
  lowercasing `String.toLower` (they agree on ASCII text).
* JS numbers holding millisecond timestamps are modelled as `Nat` (article
  fields) or `Int` (clock arithmetic in the rate limiter).
* Fallible external effects (fetch, XML parsing) are modelled by explicit
  sum types (`FetchResult`, `FeedDoc`); a DOM `item` element is modelled by
  the record of the field texts the code reads from it (`RSSItem`).
-/

namespace NewsStream

/-! ## JS numeric and string primitives -/

/-- JS `ToInt32`: wrap an integer to the range of 32-bit signed integers.
This is what the bitwise step `hash = hash & hash` (and the `<<` operator)
in `generateArticleId` performs. -/
def toInt32 (n : Int) : Int :=
  (n + 2147483648) % 4294967296 - 2147483648

/-- One step of the hash loop in `generateArticleId` (src/script.js:639-640):
`hash = ((hash << 5) - hash) + char; hash = hash & hash;`.
`hash << 5` is ToInt32 of `hash * 32`; the trailing `& hash` wraps the
(float-exact) sum back to a 32-bit signed integer. -/
def hashStep (hash : Int) (c : Nat) : Int :=
  toInt32 (toInt32 (hash * 32) - hash + c)

/-- The hash accumulation of `generateArticleId` over a list of character
codes, starting from 0 (src/script.js:636-641). -/
def jsHash (codes : List Nat) : Int :=
  codes.foldl hashStep 0

/-- One base-36 digit as produced by JS `Number.prototype.toString(36)`:
`0`-`9` then `a`-`z`. -/
def base36digit (d : Nat) : Char :=
  if d < 10 then Char.ofNat (48 + d) else Char.ofNat (87 + d)

/-- Digit accumulation for `natToBase36`. -/
def base36aux (n : Nat) (acc : List Char) : List Char :=
  if h : n = 0 then acc
  else base36aux (n / 36) (base36digit (n % 36) :: acc)
termination_by n
decreasing_by exact Nat.div_lt_self (Nat.pos_of_ne_zero h) (by omega)

/-- JS `n.toString(36)` for a natural number. -/
def natToBase36 (n : Nat) : String :=
  if n = 0 then "0" else ⟨base36aux n []⟩

/-- The character codes the hash loop of `generateArticleId` iterates over:
`(title + url).toLowerCase()` (src/script.js:635). -/
def combinedCodes (title url : String) : List Nat :=
  ((title ++ url).toLower).data.map Char.toNat

/-- Model of `generateArticleId` (src/script.js:634-643): hash the lowercased
concatenation of title and url and render `Math.abs(hash)` in base 36. -/
def generateArticleId (title url : String) : String :=
  natToBase36 (jsHash (combinedCodes title url)).natAbs

/-- Modelled from the spec (§4.3 `id`): "iterate characters,
`hash = (hash << 5) - hash + charCode` with 32-bit signed wraparound at each
step, final id = base-36 encoding of `abs(hash)`", over
`lowercase(title + url)`.  The wraparound is a single `toInt32` applied to
the whole step expression. -/
def specArticleId (title url : String) : String :=
  natToBase36 ((combinedCodes title url).foldl
    (fun hash (c : Nat) => toInt32 (hash * 32 - hash + (c : Int))) 0).natAbs

/-- Characters matched by the JS regex class `\w`: ASCII letters, digits and
underscore. -/
def jsIsWordChar (c : Char) : Bool :=
  c.isAlphanum || c == '_'

/-- Characters matched by the JS regex class `\s`, restricted to the ASCII
whitespace characters (space, tab, line feed, vertical tab, form feed,
carriage return); the Unicode space characters of `\s` are not modelled. -/
def jsIsSpace (c : Char) : Bool :=
  c == ' ' || c == '\t' || c == '\n' || c == '\r' ||
    c.toNat == 11 || c.toNat == 12

/-- Model of `.replace(/\s+/g, ' ')`: collapse every maximal run of
whitespace characters to a single space.  `prevSpace` records whether the
previous character belonged to a run that was already collapsed. -/
def collapseAux (prevSpace : Bool) : List Char → List Char
  | [] => []
  | c :: rest =>
    if jsIsSpace c then
      if prevSpace then collapseAux true rest
      else ' ' :: collapseAux true rest
    else c :: collapseAux false rest

/-- Model of JS `String.prototype.trim`: drop leading and trailing
whitespace. -/
def jsTrim (l : List Char) : List Char :=
  ((l.dropWhile jsIsSpace).reverse.dropWhile jsIsSpace).reverse

/-- Model of `.replace(/<[^>]*>/g, '')` in `sanitizeText`
(src/script.js:652): remove every segment from a `<` to the next `>`;
a `<` with no following `>` is kept (the regex does not match there). -/
def stripTags : List Char → List Char
  | [] => []
  | c :: rest =>
    if c = '<' then
      match h : rest.dropWhile (fun x => x ≠ '>') with
      | [] => c :: stripTags rest
      | _ :: tail => stripTags tail
    else c :: stripTags rest
termination_by l => l.length
decreasing_by
  · simp
  · rename_i h
    have h1 := (List.dropWhile_sublist (l := rest) (p := fun x => x ≠ '>')).length_le
    rw [h] at h1
    simp at h1 ⊢
    omega
  · simp

/-- Model of `.replace(/&[^;]+;/g, ' ')` in `sanitizeText`
(src/script.js:653): replace every segment from a `&` through at least one
non-`;` character up to the next `;` by a single space; a `&` immediately
followed by `;`, or with no later `;`, is kept. -/
def stripEntities : List Char → List Char
  | [] => []
  | c :: rest =>
    if c = '&' then
      match h : rest.dropWhile (fun x => x ≠ ';') with
      | [] => c :: stripEntities rest
      | _ :: tail =>
        if rest.takeWhile (fun x => x ≠ ';') = [] then c :: stripEntities rest
        else ' ' :: stripEntities tail
    else c :: stripEntities rest
termination_by l => l.length
decreasing_by
  · simp
  · simp
  · have h1 := (List.dropWhile_sublist (l := rest) (p := fun x => x ≠ ';')).length_le
    rw [h] at h1
    simp at h1 ⊢
    omega
  · simp

/-- Model of `sanitizeText` (src/script.js:648-656): strip markup tags,
replace HTML entities by spaces, collapse whitespace and trim.  An absent
text (`!text`) is the empty string in this model. -/
def sanitizeText (text : String) : String :=
  ⟨jsTrim (collapseAux false (stripEntities (stripTags text.data)))⟩

/-- Model of `generateSummary` (src/script.js:689-691): truncate the title
to 100 characters plus an ellipsis when longer. -/
def generateSummary (title : String) : String :=
  if title.length > 100 then ⟨title.data.take 100⟩ ++ "..." else title

/-! ## URL model

The code calls the browser `URL` constructor (an external API). We model
the part of its behaviour the code depends on: scheme recognition (a URL
parses when it starts with a scheme, i.e. an ASCII letter followed by
letters, digits, `+`, `-` or `.`, then a colon; `protocol` is that scheme
lowercased with the colon) and serialisation, which we model as the
identity (the canonicalisation the real API performs is not modelled). -/

/-- Whether `c` may appear in a URL scheme after the first character. -/
def isSchemeChar (c : Char) : Bool :=
  c.isAlphanum || c == '+' || c == '-' || c == '.'

/-- Modelled from the browser URL API: `new URL(s).protocol`, i.e. the
lowercased scheme of `s` followed by a colon, or `none` when `s` does not
begin with `scheme:` (the parse throws). -/
def jsURLProtocol (s : String) : Option String :=
  match s.data with
  | [] => none
  | c :: rest =>
    if c.isAlpha then
      let scheme := c :: rest.takeWhile isSchemeChar
      match rest.dropWhile isSchemeChar with
      | ':' :: _ => some ⟨(scheme.map Char.toLower) ++ [':']⟩
      | _ => none
    else none

/-- Modelled from the browser URL API: `new URL(s).pathname`, approximated
as the text after the scheme and authority up to the first `?` or `#`. -/
def jsURLPathname (s : String) : String :=
  match jsURLProtocol s with
  | none => ""
  | some p =>
    let afterScheme := s.data.drop p.length
    let path :=
      match afterScheme with
      | '/' :: '/' :: rest => (rest.dropWhile (fun c => c ≠ '/')).takeWhile
          (fun c => c ≠ '?' ∧ c ≠ '#')
      | other => other.takeWhile (fun c => c ≠ '?' ∧ c ≠ '#')
    ⟨path⟩

/-- Model of `sanitizeUrl` (src/script.js:661-670): parse the URL and keep
it only when its scheme is `https` or `http`; an unparseable URL or any
other scheme yields `null`.  `urlObj.toString()` is modelled as the input
string itself. -/
def sanitizeUrl (url : String) : Option String :=
  match jsURLProtocol url with
  | none => none
  | some p => if p == "https:" || p == "http:" then some url else none

/-- Model of `isValidImageUrl` (src/script.js:621-629): the URL must parse,
use the `https` scheme and have a pathname ending in an image extension. -/
def isValidImageUrl (url : String) : Bool :=
  match jsURLProtocol url with
  | none => false
  | some p =>
    p == "https:" &&
      (let path := (jsURLPathname url).toLower
       path.endsWith ".jpg" || path.endsWith ".jpeg" || path.endsWith ".png"
         || path.endsWith ".gif" || path.endsWith ".webp")

/-! ## Data model -/

/-- Content limits from the constructor (src/script.js:39-42). -/
def maxArticles : Nat := 100

/-- Per-source article cap (src/script.js:42). -/
def maxArticlesPerSource : Nat := 5

/-- The source descriptor an article records (src/script.js:561-566). -/
structure SourceInfo where
  id : String
  name : String
  verified : Bool
  isCustom : Bool
deriving Repr, DecidableEq

/-- An active source as produced by `getActiveSources`
(src/script.js:696-731): a catalog or custom source tagged with its
category. -/
structure ActiveSource where
  id : String
  name : String
  url : String
  verified : Bool
  isCustom : Bool
  category : String
deriving Repr, DecidableEq

/-- An article record as constructed by `extractArticleFromItem`
(src/script.js:554-569).  `publishedAt` models the parsed timestamp behind
the ISO string (comparisons in the code go through `new Date(...)`, which
inverts `toISOString`). -/
structure Article where
  id : String
  title : String
  summary : String
  url : Option String
  imageUrl : Option String
  publishedAt : Nat
  source : SourceInfo
  category : String
  loadedAt : Nat
deriving Repr, DecidableEq

/-- A DOM `item` element, modelled as the record of what the code reads
from it.  The text fields are the (trimmed) `textContent` of the named
child, `""` when the child is absent, exactly as `getElementText` returns
(src/script.js:580-583).  `pubDate` models the outcome of `parseDate` on
the `pubDate` child: the parsed timestamp, or `none` when the child is
absent or its text does not parse as a date.  `mediaUrl` models the `url`
attribute of a `content`/`thumbnail` child, `enclosureType`/`enclosureUrl`
the attributes of an `enclosure` child, and `descImg` the first
`<img src=...>` occurrence inside the raw description markup
(src/script.js:588-616); `none` models an absent element or attribute. -/
structure RSSItem where
  title : String
  link : String
  guid : String
  description : String
  pubDate : Option Nat
  mediaUrl : Option String
  enclosureType : Option String
  enclosureUrl : Option String
  descImg : Option String
deriving Repr, DecidableEq

/-- The outcome of `DOMParser.parseFromString` on the fetched body
(src/script.js:508-517): either a document with a `parsererror` element,
or the list of `item` elements in document order. -/
inductive FeedDoc where
  | malformed : FeedDoc
  | items : List RSSItem → FeedDoc
deriving Repr, DecidableEq

/-- The outcome of the `fetch` call for one source (src/script.js:470-480):
a rejected promise (network error), a non-ok HTTP status (the code throws
on `!response.ok`), or a body handed to the RSS parser. -/
inductive FetchResult where
  | networkError : FetchResult
  | httpError : Nat → FetchResult
  | ok : FeedDoc → FetchResult
deriving Repr, DecidableEq

/-- Whether a source's fetch or parse failed: network error, non-OK HTTP
status, or malformed XML document. -/
def fetchFailed : FetchResult → Bool
  | .networkError => true
  | .httpError _ => true
  | .ok .malformed => true
  | .ok (.items _) => false

/-! ## Feed parsing -/

/-- Model of `extractImageUrl` (src/script.js:588-616): try the `url`
attribute of a media `content`/`thumbnail` element, then an `enclosure`
whose declared type starts with `image/`, then the first `img src`
occurrence in the description markup; each candidate is gated by
`isValidImageUrl` (an empty attribute value is falsy and skipped). -/
def extractImageUrl (item : RSSItem) : Option String :=
  let fromMedia :=
    match item.mediaUrl with
    | some url => if url != "" && isValidImageUrl url then some url else none
    | none => none
  let fromEnclosure :=
    match item.enclosureType with
    | some t =>
      if t.startsWith "image/" then
        match item.enclosureUrl with
        | some url =>
          if url != "" && isValidImageUrl url then some url else none
        | none => none
      else none
    | none => none
  let fromDescription :=
    if item.description ≠ "" then
      match item.descImg with
      | some url => if isValidImageUrl url then some url else none
      | none => none
    else none
  (fromMedia.orElse fun _ => fromEnclosure).orElse fun _ => fromDescription

/-- Model of `extractArticleFromItem` (src/script.js:540-575): read title,
description, link (falling back to guid) and pubDate from the item; reject
the item when title or link is empty (JS falsiness of `''`); otherwise
build the article.  `now` is the current instant, used by `parseDate` as
the fallback timestamp and recorded as `loadedAt`. -/
def extractArticleFromItem (item : RSSItem) (source : ActiveSource)
    (now : Nat) : Option Article :=
  let title := item.title
  let description := item.description
  let link := if item.link ≠ "" then item.link else item.guid
  if title = "" ∨ link = "" then none
  else
    some {
      id := generateArticleId title link
      title := sanitizeText title
      summary :=
        if sanitizeText description ≠ "" then sanitizeText description
        else generateSummary title
      url := sanitizeUrl link
      imageUrl := extractImageUrl item
      publishedAt := item.pubDate.getD now
      source := {
        id := source.id
        name := source.name
        verified := source.verified
        isCustom := source.isCustom }
      category := source.category
      loadedAt := now }

/-- Model of `parseRSSFeed` (src/script.js:506-535) on an already-parsed
document: a malformed document yields `[]` (the thrown error is caught
locally); otherwise the code iterates `items.forEach((item, index) => ...)`
and extracts only while `index < 10`, pushing each successfully extracted
article. -/
def parseRSSFeed (doc : FeedDoc) (source : ActiveSource) (now : Nat) :
    List Article :=
  match doc with
  | .malformed => []
  | .items items =>
    items.enum.foldl
      (fun articles p =>
        if p.1 < 10 then
          match extractArticleFromItem p.2 source now with
          | some article => articles ++ [article]
          | none => articles
        else articles)
      []

/-! ## Per-source loading and the refresh fan-in -/

/-- The articles `loadSingleSource` appends to `this.allArticles`
(src/script.js:466-501): nothing when the fetch rejects or the response is
not ok (the `catch` swallows the error and returns `[]`); otherwise the
parsed articles capped by `slice(0, this.maxArticlesPerSource)`.  (The
`if (articles.length > 0)` guard in the code only skips pushing an empty
slice, which appends nothing either way.) -/
def sourceContribution (source : ActiveSource) (result : FetchResult)
    (now : Nat) : List Article :=
  match result with
  | .networkError => []
  | .httpError _ => []
  | .ok doc => (parseRSSFeed doc source now).take maxArticlesPerSource

/-- The contents of `this.allArticles` after `Promise.allSettled` resolves
in `startProgressiveLoading` (src/script.js:417-426): starting from the
reset `[]`, the completion callback of each task pushes that source's
contribution.  `completed` lists the active sources paired with their fetch
outcomes in task-completion order (which is not deterministic; the theorems
hold for every order). -/
def refreshAllArticles (completed : List (ActiveSource × FetchResult))
    (now : Nat) : List Article :=
  completed.foldl
    (fun allArticles p => allArticles ++ sourceContribution p.1 p.2 now) []

/-! ## Aggregation: deduplicate, sort, cap -/

/-- The normalized-title key of `deduplicateArticles`
(src/script.js:757-761): lowercase the title, strip every character that is
neither a word character nor whitespace, collapse whitespace, trim, and
truncate to 50 characters. -/
def dedupKey (title : String) : String :=
  ⟨(jsTrim (collapseAux false
      (title.toLower.data.filter (fun c => jsIsWordChar c || jsIsSpace c)))).take 50⟩

/-- The loop of `deduplicateArticles` (src/script.js:752-770): `seen` is
the set of keys already kept; an article whose key is unseen is kept and
its key recorded. -/
def dedupAux (seen : List String) : List Article → List Article
  | [] => []
  | a :: rest =>
    if dedupKey a.title ∈ seen then dedupAux seen rest
    else a :: dedupAux (dedupKey a.title :: seen) rest

/-- Model of `deduplicateArticles` (src/script.js:752-770). -/
def deduplicateArticles (articles : List Article) : List Article :=
  dedupAux [] articles

/-- The comparator of `processAllArticles` (src/script.js:741) as the
"should come no later than" Boolean relation of a stable sort:
`(a, b) => new Date(b.publishedAt) - new Date(a.publishedAt)` places `a`
at or before `b` exactly when the comparator is nonpositive, i.e. when
`b.publishedAt ≤ a.publishedAt`. -/
def articleLE (a b : Article) : Bool :=
  decide (b.publishedAt ≤ a.publishedAt)

/-- The sort step of `processAllArticles` (src/script.js:741).  JS
`Array.prototype.sort` is required to be stable, so it is modelled by the
stable `List.mergeSort`. -/
def sortArticles (articles : List Article) : List Article :=
  articles.mergeSort articleLE

/-- Model of `processAllArticles` (src/script.js:736-747) as the function
from the accumulated `this.allArticles` to `this.articles`: deduplicate,
sort newest-first, and cap at `maxArticles`. -/
def processAllArticles (allArticles : List Article) : List Article :=
  (sortArticles (deduplicateArticles allArticles)).take maxArticles

/-! ## Manual refresh admission control -/

/-- Rate-limit interval (src/script.js:96-97). -/
def minFetchInterval : Int := 30000

/-- The mutable application state consulted by `refreshNews`:
`lastFetchTime` (src/script.js:96) and the `isLoading` re-entrancy flag of
`startProgressiveLoading` (src/script.js:33, 396-399). -/
structure AppState where
  lastFetchTime : Int
  isLoading : Bool
deriving Repr, DecidableEq

/-- The caller-visible outcome of a manual refresh request
(src/script.js:1136-1156): rejected by the rate limiter with the remaining
wait in seconds, skipped because a previous refresh is still in progress
(`startProgressiveLoading`'s early return), or a refresh that ran. -/
inductive RefreshOutcome where
  | rateLimited : Int → RefreshOutcome
  | skippedInProgress : RefreshOutcome
  | started : RefreshOutcome
deriving Repr, DecidableEq

/-- Model of `refreshNews` (src/script.js:1136-1156) together with the
admission check of `startProgressiveLoading` (src/script.js:396): returns
the outcome, the state after the call, and the list of sources for which a
network fetch was dispatched.  When `now - lastFetchTime` is below the
interval the call rejects with `Math.ceil(remaining / 1000)` seconds and
touches nothing; otherwise `lastFetchTime` is set to `now` first, and only
then does `startProgressiveLoading` consult `isLoading` — if a refresh is
in flight nothing is fetched, else one fetch per active source is
dispatched.  The returned `isLoading` models the value after the call
completes (the `finally` of `startProgressiveLoading` restores it). -/
def refreshNews (st : AppState) (now : Int)
    (activeSources : List ActiveSource) :
    RefreshOutcome × AppState × List ActiveSource :=
  if now - st.lastFetchTime < minFetchInterval then
    (.rateLimited ((minFetchInterval - (now - st.lastFetchTime) + 999) / 1000),
      st, [])
  else
    let st1 : AppState := { st with lastFetchTime := now }
    if st.isLoading then (.skippedInProgress, st1, [])
    else (.started, st1, activeSources)

/-! ## Helper lemmas about the deduplication loop -/

/-- The deduplication loop keeps a subsequence of its input. -/
theorem dedupAux_sublist : ∀ (l : List Article) (seen : List String),
    (dedupAux seen l).Sublist l := by
  intro l
  induction l with
  | nil => intro seen; simp [dedupAux]
  | cons a rest ih =>
    intro seen
    by_cases hk : dedupKey a.title ∈ seen
    · simp only [dedupAux, if_pos hk]
      exact (ih seen).cons a
    · simp only [dedupAux, if_neg hk]
      exact (ih _).cons₂ a

/-- Every article kept by the deduplication loop has a key outside `seen`. -/
theorem dedupAux_key_not_mem : ∀ (l : List Article) (seen : List String)
    (b : Article), b ∈ dedupAux seen l → dedupKey b.title ∉ seen := by
  intro l
  induction l with
  | nil => intro seen b hb; simp [dedupAux] at hb
  | cons a rest ih =>
    intro seen b hb
    by_cases hk : dedupKey a.title ∈ seen
    · simp only [dedupAux, if_pos hk] at hb
      exact ih seen b hb
    · simp only [dedupAux, if_neg hk] at hb
      rcases List.mem_cons.mp hb with h1 | h1
      · subst h1; exact hk
      · intro hmem
        exact ih _ b h1 (List.mem_cons_of_mem _ hmem)

/-- The keys of the articles kept by the deduplication loop are pairwise
distinct. -/
theorem dedupAux_keys_nodup : ∀ (l : List Article) (seen : List String),
    ((dedupAux seen l).map fun a => dedupKey a.title).Nodup := by
  intro l
  induction l with
  | nil => intro seen; simp [dedupAux]
  | cons a rest ih =>
    intro seen
    by_cases hk : dedupKey a.title ∈ seen
    · simp only [dedupAux, if_pos hk]; exact ih seen
    · simp only [dedupAux, if_neg hk, List.map_cons, List.nodup_cons]
      refine ⟨?_, ih _⟩
      intro hmem
      rcases List.mem_map.mp hmem with ⟨b, hb, hkey⟩
      exact dedupAux_key_not_mem rest _ b hb
        (by rw [hkey]; exact List.mem_cons_self _ _)

/-- Every input article's key is represented among the kept articles. -/
theorem dedupAux_covers : ∀ (l : List Article) (seen : List String)
    (a : Article), a ∈ l → dedupKey a.title ∉ seen →
    ∃ b ∈ dedupAux seen l, dedupKey b.title = dedupKey a.title := by
  intro l
  induction l with
  | nil => intro seen a ha _; simp at ha
  | cons x rest ih =>
    intro seen a ha hseen
    by_cases hk : dedupKey x.title ∈ seen
    · simp only [dedupAux, if_pos hk]
      rcases List.mem_cons.mp ha with h1 | h1
      · subst h1; exact absurd hk hseen
      · exact ih seen a h1 hseen
    · simp only [dedupAux, if_neg hk]
      rcases List.mem_cons.mp ha with h1 | h1
      · subst h1
        exact ⟨a, List.mem_cons_self _ _, rfl⟩
      · by_cases heq : dedupKey a.title = dedupKey x.title
        · exact ⟨x, List.mem_cons_self _ _, heq.symm⟩
        · obtain ⟨b, hb, hkey⟩ := ih (dedupKey x.title :: seen) a h1 (by
            intro hmem
            rcases List.mem_cons.mp hmem with h2 | h2
            · exact heq h2
            · exact hseen h2)
          exact ⟨b, List.mem_cons_of_mem _ hb, hkey⟩

/-- First occurrence wins: every kept article is the first article of the
input with its key. -/
theorem dedupAux_find? : ∀ (l : List Article) (seen : List String)
    (b : Article), b ∈ dedupAux seen l →
    l.find? (fun x => dedupKey x.title == dedupKey b.title) = some b := by
  intro l
  induction l with
  | nil => intro seen b hb; simp [dedupAux] at hb
  | cons a rest ih =>
    intro seen b hb
    by_cases hk : dedupKey a.title ∈ seen
    · simp only [dedupAux, if_pos hk] at hb
      have hne : dedupKey a.title ≠ dedupKey b.title := by
        intro he
        exact dedupAux_key_not_mem rest seen b hb (he ▸ hk)
      rw [List.find?_cons_of_neg _ (by simpa using hne)]
      exact ih seen b hb
    · simp only [dedupAux, if_neg hk] at hb
      rcases List.mem_cons.mp hb with h1 | h1
      · subst h1
        exact List.find?_cons_of_pos _ (by simp)
      · have hnotin := dedupAux_key_not_mem rest _ b h1
        have hne : dedupKey a.title ≠ dedupKey b.title := by
          intro he
          exact hnotin (he ▸ List.mem_cons_self _ _)
        rw [List.find?_cons_of_neg _ (by simpa using hne)]
        exact ih _ b h1

/-- On an input whose keys are already pairwise distinct (and disjoint from
`seen`), the deduplication loop is the identity. -/
theorem dedupAux_eq_self : ∀ (l : List Article) (seen : List String),
    (∀ a ∈ l, dedupKey a.title ∉ seen) →
    ((l.map fun a => dedupKey a.title).Nodup) → dedupAux seen l = l := by
  intro l
  induction l with
  | nil => intro seen _ _; simp [dedupAux]
  | cons a rest ih =>
    intro seen hseen hnodup
    have hk : dedupKey a.title ∉ seen := hseen a (List.mem_cons_self _ _)
    simp only [dedupAux, if_neg hk]
    simp only [List.map_cons, List.nodup_cons] at hnodup
    congr 1
    apply ih
    · intro b hb hmem
      rcases List.mem_cons.mp hmem with h1 | h1
      · exact hnodup.1 (h1 ▸ List.mem_map_of_mem _ hb)
      · exact hseen b (List.mem_cons_of_mem _ hb) h1
    · exact hnodup.2

/-! ## Helper lemmas about the sort comparator -/

/-- The comparator relation is transitive. -/
theorem articleLE_trans : ∀ (a b c : Article), articleLE a b = true →
    articleLE b c = true → articleLE a c = true := by
  intro a b c hab hbc
  simp only [articleLE, decide_eq_true_eq] at *
  omega

/-- The comparator relation is total. -/
theorem articleLE_total : ∀ (a b : Article),
    (articleLE a b || articleLE b a) = true := by
  intro a b
  simp only [articleLE, Bool.or_eq_true, decide_eq_true_eq]
  omega

/-- Stability of the sort stage: the articles carrying any fixed timestamp
appear in the sorted list in the same order as in its input. -/
theorem sortArticles_stable_filter (l : List Article) (t : Nat) :
    (sortArticles l).filter (fun a => a.publishedAt == t) =
      l.filter (fun a => a.publishedAt == t) := by
  have hpair : (l.filter fun a => a.publishedAt == t).Pairwise
      (fun a b => articleLE a b = true) := by
    apply List.pairwise_of_forall_mem_list
    intro a ha b hb
    have ha' := (List.mem_filter.mp ha).2
    have hb' := (List.mem_filter.mp hb).2
    simp only [beq_iff_eq] at ha' hb'
    simp [articleLE, ha', hb']
  have hsub : (l.filter fun a => a.publishedAt == t).Sublist (sortArticles l) :=
    List.sublist_mergeSort articleLE_trans articleLE_total hpair
      (List.filter_sublist l)
  have hsub2 := hsub.filter (fun a => a.publishedAt == t)
  rw [List.filter_eq_self.mpr (fun a ha => (List.mem_filter.mp ha).2)] at hsub2
  have hlen : ((sortArticles l).filter fun a => a.publishedAt == t).length =
      (l.filter fun a => a.publishedAt == t).length :=
    ((List.mergeSort_perm l articleLE).filter _).length_eq
  exact (hsub2.eq_of_length hlen.symm).symm

/-! ## Helper lemmas about the fan-in accumulator -/

/-- Folding list-append over a list starting from `init` produces `init`
followed by the concatenation of the mapped lists. -/
theorem foldl_append_eq_join {α β : Type} (f : α → List β) :
    ∀ (l : List α) (init : List β),
      l.foldl (fun acc x => acc ++ f x) init = init ++ (l.map f).join := by
  intro l
  induction l with
  | nil => intro init; simp
  | cons x rest ih =>
    intro init
    simp [ih, List.append_assoc]

/-- The image of any member of a list is a subsequence of the concatenation
of all images. -/
theorem sublist_join_of_mem {α β : Type} (f : α → List β) :
    ∀ (l : List α) (a : α), a ∈ l → (f a).Sublist (l.map f).join := by
  intro l
  induction l with
  | nil => intro a ha; simp at ha
  | cons x rest ih =>
    intro a ha
    rcases List.mem_cons.mp ha with h1 | h1
    · subst h1
      simp only [List.map_cons, List.join]
      exact List.sublist_append_left _ _
    · simp only [List.map_cons, List.join]
      exact (ih a h1).trans (List.sublist_append_right _ _)

/-! ## Helper lemmas about the parse loop -/

/-- The `forEach` loop of `parseRSSFeed`, started at index `k`, extracts
exactly the items among the first `10 - k` of the remaining list. -/
theorem parse_foldl_enumFrom (source : ActiveSource) (now : Nat) :
    ∀ (items : List RSSItem) (k : Nat) (acc : List Article),
      (items.enumFrom k).foldl
        (fun articles p =>
          if p.1 < 10 then
            match extractArticleFromItem p.2 source now with
            | some article => articles ++ [article]
            | none => articles
          else articles) acc
      = acc ++ (items.take (10 - k)).filterMap
          (fun item => extractArticleFromItem item source now) := by
  intro items
  induction items with
  | nil => intro k acc; simp
  | cons item rest ih =>
    intro k acc
    rw [List.enumFrom_cons, List.foldl_cons]
    by_cases hk : k < 10
    · have h10 : 10 - k = (10 - (k + 1)) + 1 := by omega
      rw [h10, List.take_succ_cons, List.filterMap_cons]
      cases hext : extractArticleFromItem item source now with
      | some article =>
        simp only [if_pos hk, hext]
        rw [ih (k + 1)]
        simp [List.append_assoc]
      | none =>
        simp only [if_pos hk, hext]
        rw [ih (k + 1)]
    · have h0 : 10 - k = 0 := by omega
      have h0' : 10 - (k + 1) = 0 := by omega
      rw [h0, List.take_zero, List.filterMap_nil, List.append_nil]
      simp only [if_neg hk]
      rw [ih (k + 1), h0', List.take_zero, List.filterMap_nil,
        List.append_nil]

/-! ## Helper lemmas about the hash -/

/-- Wrapping an already-wrapped summand again does not change the result:
`toInt32` only depends on the argument modulo `2 ^ 32`. -/
theorem toInt32_toInt32_add (x y : Int) :
    toInt32 (toInt32 x + y) = toInt32 (x + y) := by
  unfold toInt32
  omega

/-- The literal hash step of the code (wrap the shift, then wrap the sum)
equals the single-wraparound step described by the spec. -/
theorem hashStep_eq_spec (h : Int) (c : Nat) :
    hashStep h c = toInt32 (h * 32 - h + c) := by
  have h1 := toInt32_toInt32_add (h * 32) (-h + c)
  unfold hashStep
  calc toInt32 (toInt32 (h * 32) - h + c)
      = toInt32 (toInt32 (h * 32) + (-h + c)) := by ring_nf
    _ = toInt32 (h * 32 + (-h + c)) := h1
    _ = toInt32 (h * 32 - h + c) := by ring_nf

/-! ## The claims -/

/-- C1. Failure isolation of the refresh: for every list of per-source
fetch outcomes (in any task-completion order), (i) the accumulated article
list is the concatenation of every dispatched source's contribution — the
refresh settles all tasks before aggregating, and no exception escapes (the
model is a total function because `loadSingleSource` catches every
per-source failure); (ii) a source whose fetch or parse failed (network
error, non-OK HTTP status, or malformed XML) contributes the empty list;
(iii) every source's contribution — in particular every succeeding
source's articles — still appears, in order, in the aggregated result. -/
theorem refresh_failure_isolation
    (completed : List (ActiveSource × FetchResult)) (now : Nat) :
    refreshAllArticles completed now =
      (completed.map fun p => sourceContribution p.1 p.2 now).join ∧
    (∀ p ∈ completed, fetchFailed p.2 = true →
      sourceContribution p.1 p.2 now = []) ∧
    (∀ p ∈ completed,
      (sourceContribution p.1 p.2 now).Sublist (refreshAllArticles completed now)) := by
  have hjoin : refreshAllArticles completed now =
      (completed.map fun p => sourceContribution p.1 p.2 now).join := by
    unfold refreshAllArticles
    rw [foldl_append_eq_join]
    simp
  refine ⟨hjoin, ?_, ?_⟩
  · intro p _ hfail
    match hp : p.2 with
    | .networkError => simp [sourceContribution, hp]
    | .httpError s => simp [sourceContribution, hp]
    | .ok .malformed => simp [sourceContribution, hp, parseRSSFeed]
    | .ok (.items its) => rw [hp] at hfail; simp [fetchFailed] at hfail
  · intro p hp
    rw [hjoin]
    exact sublist_join_of_mem
      (fun q => sourceContribution q.1 q.2 now) completed p hp

/-- Concrete fixture for the C1 witness: a source whose fetch rejects. -/
def sourceA : ActiveSource :=
  { id := "a", name := "A", url := "https://a.example/rss",
    verified := true, isCustom := false, category := "world" }

/-- Concrete fixture for the C1 witness: a source whose fetch succeeds. -/
def sourceB : ActiveSource :=
  { id := "b", name := "B", url := "https://b.example/rss",
    verified := true, isCustom := false, category := "world" }

/-- Concrete fixture for the C1 witness: a well-formed feed item. -/
def itemB : RSSItem :=
  { title := "T", link := "https://b.example/1", guid := "",
    description := "d", pubDate := some 5, mediaUrl := none,
    enclosureType := none, enclosureUrl := none, descImg := none }

/-- Witness for C1 at a concrete refresh: source A's fetch rejects and
contributes nothing, while source B's parsed articles appear in the
aggregate. -/
theorem refresh_failure_isolation_witness :
    sourceContribution sourceA .networkError 7 = [] ∧
    (sourceContribution sourceB (.ok (.items [itemB])) 7).Sublist
      (refreshAllArticles
        [(sourceA, .networkError), (sourceB, .ok (.items [itemB]))] 7) :=
  ⟨(refresh_failure_isolation
      [(sourceA, .networkError), (sourceB, .ok (.items [itemB]))] 7).2.1
      (sourceA, .networkError) (by simp) rfl,
   (refresh_failure_isolation
      [(sourceA, .networkError), (sourceB, .ok (.items [itemB]))] 7).2.2
      (sourceB, .ok (.items [itemB])) (by simp)⟩

/-- C2. Article id computation: the id produced by `generateArticleId` is
exactly the spec's algorithm — iterate the characters of
`lowercase(title + url)` with `hash = (hash << 5) - hash + charCode`
wrapped to a 32-bit signed integer at each step, then base-36 encode the
absolute value.  Both sides are pure Lean functions, so determinism (equal
inputs give equal ids) is immediate. -/
theorem generateArticleId_eq_spec (title url : String) :
    generateArticleId title url = specArticleId title url := by
  have hfold : jsHash (combinedCodes title url) =
      (combinedCodes title url).foldl
        (fun hash (c : Nat) => toInt32 (hash * 32 - hash + (c : Int))) 0 := by
    unfold jsHash
    apply List.foldl_ext
    intro acc c _
    exact hashStep_eq_spec acc c
  unfold generateArticleId specArticleId
  rw [hfold]

/-- C3. Deduplication: the output keys are pairwise distinct, the output is
a subsequence of the input (later duplicates are dropped, order kept),
every input key is represented, and each kept article is the first article
of the input carrying its key. -/
theorem deduplicateArticles_spec (l : List Article) :
    ((deduplicateArticles l).map fun a => dedupKey a.title).Nodup ∧
    (deduplicateArticles l).Sublist l ∧
    (∀ a ∈ l, ∃ b ∈ deduplicateArticles l,
      dedupKey b.title = dedupKey a.title) ∧
    (∀ b ∈ deduplicateArticles l,
      l.find? (fun x => dedupKey x.title == dedupKey b.title) = some b) := by
  refine ⟨dedupAux_keys_nodup l [], dedupAux_sublist l [], ?_, ?_⟩
  · intro a ha
    exact dedupAux_covers l [] a ha (by simp)
  · intro b hb
    exact dedupAux_find? l [] b hb

/-- Concrete fixture for the C3 witness: an article whose title carries
trailing punctuation. -/
def articleDup1 : Article :=
  { id := "x1", title := "Storm hits coast!", summary := "s1",
    url := some "https://a.example/1", imageUrl := none, publishedAt := 10,
    source := { id := "a", name := "A", verified := true, isCustom := false },
    category := "world", loadedAt := 10 }

/-- Concrete fixture for the C3 witness: the same story without the
punctuation, so both articles share one dedup key. -/
def articleDup2 : Article :=
  { id := "x2", title := "Storm hits coast", summary := "s2",
    url := some "https://b.example/1", imageUrl := none, publishedAt := 11,
    source := { id := "b", name := "B", verified := true, isCustom := false },
    category := "world", loadedAt := 10 }

/-- Witness for C3 on two concretely colliding articles: the second
article's key is represented in the output, and the kept first article is
the first input article with that key. -/
theorem deduplicateArticles_spec_witness :
    (∃ b ∈ deduplicateArticles [articleDup1, articleDup2],
      dedupKey b.title = dedupKey articleDup2.title) ∧
    [articleDup1, articleDup2].find?
      (fun x => dedupKey x.title == dedupKey articleDup1.title) =
      some articleDup1 :=
  ⟨(deduplicateArticles_spec [articleDup1, articleDup2]).2.2.1
      articleDup2 (by decide),
   (deduplicateArticles_spec [articleDup1, articleDup2]).2.2.2
      articleDup1 (by decide)⟩

/-- C4. Cap invariant: the aggregation pipeline never produces more than
`maxArticles` articles, and that global constant is 100 (the code comment
saying 50 notwithstanding). -/
theorem processAllArticles_cap (l : List Article) :
    (processAllArticles l).length ≤ maxArticles ∧ maxArticles = 100 := by
  refine ⟨?_, rfl⟩
  unfold processAllArticles
  rw [List.length_take]
  exact Nat.min_le_left _ _

/-- C5. Sort invariant: the aggregated output is pairwise non-increasing in
`publishedAt`, and the sort stage is stable — for every timestamp, the
articles carrying it appear in the sorted list in the same relative order
as in the sort's input. -/
theorem processAllArticles_sorted_stable (l : List Article) (t : Nat) :
    (processAllArticles l).Pairwise
      (fun a b => b.publishedAt ≤ a.publishedAt) ∧
    (sortArticles l).filter (fun a => a.publishedAt == t) =
      l.filter (fun a => a.publishedAt == t) := by
  constructor
  · have hs := List.sorted_mergeSort articleLE_trans articleLE_total
      (deduplicateArticles l)
    have htake := List.Pairwise.sublist
      (List.take_sublist maxArticles _) hs
    exact htake.imp fun h => of_decide_eq_true h
  · exact sortArticles_stable_filter l t

/-- C6. Idempotence of aggregation: running the pipeline on the articles of
an already-aggregated result changes nothing — the keys are already
distinct, the list is already sorted, and the cap is already satisfied. -/
theorem processAllArticles_idempotent (l : List Article) :
    processAllArticles (processAllArticles l) = processAllArticles l := by
  unfold processAllArticles
  have hperm : List.Perm (sortArticles (deduplicateArticles l))
      (deduplicateArticles l) :=
    List.mergeSort_perm _ articleLE
  have hkeys_s : ((sortArticles (deduplicateArticles l)).map
      fun a => dedupKey a.title).Nodup :=
    ((hperm.map _).nodup_iff).mpr (dedupAux_keys_nodup l [])
  have hkeys_out : (((sortArticles (deduplicateArticles l)).take maxArticles).map
      fun a => dedupKey a.title).Nodup :=
    List.Nodup.sublist ((List.take_sublist _ _).map _) hkeys_s
  have hdedup_out : deduplicateArticles
      ((sortArticles (deduplicateArticles l)).take maxArticles) =
      (sortArticles (deduplicateArticles l)).take maxArticles :=
    dedupAux_eq_self _ [] (fun a _ => by simp) hkeys_out
  have hsorted_out : ((sortArticles (deduplicateArticles l)).take
      maxArticles).Pairwise (fun a b => articleLE a b = true) :=
    List.Pairwise.sublist (List.take_sublist _ _)
      (List.sorted_mergeSort articleLE_trans articleLE_total _)
  have hsort_out : sortArticles
      ((sortArticles (deduplicateArticles l)).take maxArticles) =
      (sortArticles (deduplicateArticles l)).take maxArticles :=
    List.mergeSort_of_sorted hsorted_out
  rw [hdedup_out, hsort_out, List.take_take, Nat.min_self]

/-- C7. Rate limiting: a manual refresh arriving less than 30000 ms after
the last accepted one is rejected with a rate-limited outcome whose payload
is the remaining wait rounded up to whole seconds (characterised by the
ceiling inequalities), the state is untouched and no fetch is dispatched;
otherwise (no refresh in flight) the refresh proceeds and dispatches one
fetch per active source. -/
theorem refreshNews_rateLimited (st : AppState) (now : Int)
    (srcs : List ActiveSource) :
    (now - st.lastFetchTime < 30000 →
      ∃ r, refreshNews st now srcs = (.rateLimited r, st, []) ∧
        1000 * (r - 1) < 30000 - (now - st.lastFetchTime) ∧
        30000 - (now - st.lastFetchTime) ≤ 1000 * r) ∧
    (30000 ≤ now - st.lastFetchTime → st.isLoading = false →
      refreshNews st now srcs =
        (.started, { st with lastFetchTime := now }, srcs)) := by
  constructor
  · intro h
    refine ⟨(30000 - (now - st.lastFetchTime) + 999) / 1000, ?_, ?_, ?_⟩
    · unfold refreshNews minFetchInterval
      rw [if_pos (by omega)]
    · omega
    · omega
  · intro h hload
    unfold refreshNews minFetchInterval
    rw [if_neg (by omega)]
    simp [hload]

/-- Witness for C7: a refresh 10 s after the previous accepted one is
rejected with a 20 s wait and dispatches no fetch. -/
theorem refreshNews_rateLimited_witness :
    ∃ r, refreshNews ⟨0, false⟩ 10000 [] =
        (.rateLimited r, ⟨0, false⟩, []) ∧
      1000 * (r - 1) < 30000 - (10000 - 0) ∧
      30000 - (10000 - 0) ≤ 1000 * r :=
  (refreshNews_rateLimited ⟨0, false⟩ 10000 []).1 (by norm_num)

/-- C8. Per-source two-stage cap: the parse loop extracts exactly the
successfully extracted articles among the first 10 items in document order
(so only those 10 are ever considered, for a 12-item feed as for any
other), and the source's contribution is the first-5 prefix of that
extraction, hence never more than 5 articles. -/
theorem parseRSSFeed_two_stage_cap (items : List RSSItem)
    (source : ActiveSource) (now : Nat) :
    parseRSSFeed (.items items) source now =
      (items.take 10).filterMap
        (fun item => extractArticleFromItem item source now) ∧
    parseRSSFeed (.items items) source now =
      parseRSSFeed (.items (items.take 10)) source now ∧
    sourceContribution source (.ok (.items items)) now =
      (parseRSSFeed (.items items) source now).take maxArticlesPerSource ∧
    (sourceContribution source (.ok (.items items)) now).length ≤ 5 := by
  have hparse : ∀ its : List RSSItem, parseRSSFeed (.items its) source now =
      (its.take 10).filterMap
        (fun item => extractArticleFromItem item source now) := by
    intro its
    show (its.enumFrom 0).foldl _ [] = _
    rw [parse_foldl_enumFrom source now its 0 []]
    simp
  refine ⟨hparse items, ?_, rfl, ?_⟩
  · rw [hparse items, hparse (items.take 10), List.take_take, Nat.min_self]
  · show ((parseRSSFeed (.items items) source now).take
      maxArticlesPerSource).length ≤ 5
    rw [List.length_take]
    exact Nat.min_le_left _ _

/-- C9. URL sanitization does not gate article construction: an item with a
nonempty title and link still yields an article whose `url` field is
whatever `sanitizeUrl` produced — including `none` when the link is
unparseable or uses a scheme other than http/https — and an http/https link
is stored as its (canonical, modelled as identity) URL string. -/
theorem extractArticle_url_not_gated (item : RSSItem)
    (source : ActiveSource) (now : Nat) :
    (item.title ≠ "" →
      (if item.link ≠ "" then item.link else item.guid) ≠ "" →
      ∃ a, extractArticleFromItem item source now = some a ∧
        a.url = sanitizeUrl (if item.link ≠ "" then item.link else item.guid)) ∧
    (∀ url, jsURLProtocol url = none → sanitizeUrl url = none) ∧
    (∀ url p, jsURLProtocol url = some p → p ≠ "http:" → p ≠ "https:" →
      sanitizeUrl url = none) ∧
    (∀ url p, jsURLProtocol url = some p → (p = "http:" ∨ p = "https:") →
      sanitizeUrl url = some url) := by
  refine ⟨?_, ?_, ?_, ?_⟩
  · intro ht hl
    unfold extractArticleFromItem
    rw [if_neg (by push_neg; exact ⟨ht, hl⟩)]
    exact ⟨_, rfl, rfl⟩
  · intro url hp
    unfold sanitizeUrl
    rw [hp]
  · intro url p hp hne1 hne2
    unfold sanitizeUrl
    rw [hp]
    simp [hne1, hne2]
  · intro url p hp hor
    unfold sanitizeUrl
    rw [hp]
    rcases hor with h | h <;> simp [h]

/-- Concrete fixture for the C9 witness: an item whose link is a
`javascript:` URL. -/
def itemBadLink : RSSItem :=
  { title := "T", link := "javascript:alert(1)", guid := "",
    description := "", pubDate := none, mediaUrl := none,
    enclosureType := none, enclosureUrl := none, descImg := none }

/-- Concrete fixture for the C9 witness: a custom source. -/
def sourceS : ActiveSource :=
  { id := "s", name := "S", url := "https://s.example/rss",
    verified := false, isCustom := true, category := "world" }

/-- Witness for C9: an item whose link has the `javascript:` scheme still
becomes an article, carrying `url = none`. -/
theorem extractArticle_url_not_gated_witness :
    ∃ a, extractArticleFromItem itemBadLink sourceS 3 = some a ∧
      a.url = none := by
  obtain ⟨a, ha, hurl⟩ :=
    (extractArticle_url_not_gated itemBadLink sourceS 3).1
      (by decide) (by decide)
  refine ⟨a, ha, ?_⟩
  rw [hurl]
  decide

/-- C10. The rate-limit timestamp is advanced before the re-entrancy guard
is consulted: a manual refresh that passes the 30-second check while a
previous refresh is still loading dispatches no fetch, yet leaves
`lastFetchTime` set to the call time, restarting the rate-limit window. -/
theorem refreshNews_skipped_restarts_window (st : AppState) (now : Int)
    (srcs : List ActiveSource) :
    30000 ≤ now - st.lastFetchTime → st.isLoading = true →
    refreshNews st now srcs =
      (.skippedInProgress, { st with lastFetchTime := now }, []) := by
  intro h hload
  unfold refreshNews minFetchInterval
  rw [if_neg (by omega)]
  simp [hload]

/-- Witness for C10: with a refresh in flight, a call at t = 40000 after an
accepted refresh at t = 0 fetches nothing but moves the window to 40000. -/
theorem refreshNews_skipped_restarts_window_witness :
    refreshNews ⟨0, true⟩ 40000 [] = (.skippedInProgress, ⟨40000, true⟩, []) :=
  refreshNews_skipped_restarts_window ⟨0, true⟩ 40000 [] (by norm_num) rfl

end NewsStream
